import Mathlib

/-!
Shallow embedding of the tgfx GPU render-graph core, covering the
Gaussian-blur image filter (src/core/filters/GaussianBlurImageFilter.cpp),
the Pixmap pixel-view (src/core/Pixmap.cpp), the GL program render-target
state cache (src/src/gpu/opengl/GLProgram.cpp) and the program cache
(src/src/gpu/ProgramCache.h, modelled from the spec where the
implementation is not in the source drop).

Machine `float` arithmetic is modelled by exact rationals (ℚ); C-style
`static_cast<int>` float-to-int conversion is truncation toward zero.
-/

namespace TgfxModel

/-! ## Geometry: Rect and the few Matrix operations the blur filter uses.
The tgfx `Rect` mirrors the Skia `SkRect` (the class itself is repository code
outside the source drop; the operations below follow its standard
semantics: `intersect` replaces the rect by the intersection when that
intersection is non-empty and otherwise leaves the rect unchanged,
`roundOut` takes floors of left/top and ceilings of right/bottom). -/

/-- Executable floor of a rational (`q.num.fdiv q.den`); agrees with
the Mathlib `⌊·⌋` (see `qfloor_eq`). -/
def qfloor (q : ℚ) : ℤ := q.num.fdiv q.den

/-- Executable ceiling of a rational; agrees with `⌈·⌉` (see `qceil_eq`). -/
def qceil (q : ℚ) : ℤ := -qfloor (-q)

structure Rect where
  left : ℚ
  top : ℚ
  right : ℚ
  bottom : ℚ
deriving DecidableEq

namespace Rect

def width (r : Rect) : ℚ := r.right - r.left

def height (r : Rect) : ℚ := r.bottom - r.top

def MakeWH (w h : ℚ) : Rect := ⟨0, 0, w, h⟩

/-- `Rect::makeOutset(dx, dy)`: grow the rect by `dx` on the left and right
and `dy` on the top and bottom. -/
def makeOutset (r : Rect) (dx dy : ℚ) : Rect :=
  ⟨r.left - dx, r.top - dy, r.right + dx, r.bottom + dy⟩

/-- `Rect::roundOut()`: the smallest integer-coordinate rect containing `r`. -/
def roundOut (r : Rect) : Rect :=
  ⟨(qfloor r.left : ℤ), (qfloor r.top : ℤ), (qceil r.right : ℤ), (qceil r.bottom : ℤ)⟩

/-- `Rect::intersect(other)`: replace by the intersection when it is
non-empty, otherwise leave the rect unchanged (the C++ method then
returns false, a value the blur filter ignores). -/
def intersect (r other : Rect) : Rect :=
  let l := max r.left other.left
  let t := max r.top other.top
  let ri := min r.right other.right
  let b := min r.bottom other.bottom
  if l < ri ∧ t < b then ⟨l, t, ri, b⟩ else r

/-- `Matrix::MakeScale(s).mapRect(&r)` for a positive scale `s`. -/
def scale (r : Rect) (s : ℚ) : Rect :=
  ⟨r.left * s, r.top * s, r.right * s, r.bottom * s⟩

/-- All four coordinates are integers (the rect is its own `roundOut`). -/
def IsIntegral (r : Rect) : Prop := r.roundOut = r

instance (r : Rect) : Decidable r.IsIntegral := by
  unfold IsIntegral; infer_instance

end Rect

/-- C-style `static_cast<int>` from float: truncation toward zero. -/
def truncInt (q : ℚ) : ℤ := if 0 ≤ q then qfloor q else qceil q

/-! ## The blur image filter (GaussianBlurImageFilter.cpp). -/

inductive TileMode where
  | Clamp | Repeat | Mirror | Decal
deriving DecidableEq

inductive GaussianBlurDirection where
  | Horizontal | Vertical
deriving DecidableEq

/-- `#define MAX_BLUR_SIGMA 10.f` -/
def MAX_BLUR_SIGMA : ℚ := 10

/-- The state a constructed `GaussianBlurImageFilter` carries
(via its `BlurImageFilter` base). -/
structure GaussianBlurImageFilter where
  blurrinessX : ℚ
  blurrinessY : ℚ
  tileMode : TileMode
deriving DecidableEq

/-- `ImageFilter::Blur(blurrinessX, blurrinessY, tileMode)`: returns null
(`none`) for a negative blurriness on either axis or when both are zero,
otherwise constructs the filter. -/
def ImageFilter.Blur (blurX blurY : ℚ) (tileMode : TileMode) :
    Option GaussianBlurImageFilter :=
  if blurX < 0 ∨ blurY < 0 ∨ (blurX = 0 ∧ blurY = 0) then none
  else some ⟨blurX, blurY, tileMode⟩

/-- `GaussianBlurImageFilter::onFilterBounds(srcRect)`:
`srcRect.makeOutset(2.f * blurrinessX, 2.f * blurrinessY)`. -/
def onFilterBounds (f : GaussianBlurImageFilter) (srcRect : Rect) : Rect :=
  srcRect.makeOutset (2 * f.blurrinessX) (2 * f.blurrinessY)

/-- `ImageFilter::filterBounds` (base class, outside the source drop;
per the spec the bounds of the visible effect of a blur filter are exactly the
`onFilterBounds` outset): delegates to `onFilterBounds`. -/
def filterBounds (f : GaussianBlurImageFilter) (srcRect : Rect) : Rect :=
  onFilterBounds f srcRect

/-! ### Trace model of `GaussianBlurImageFilter::lockTextureProxy`.

The function is embedded as a trace-producing interpreter: render-target
allocations (`RenderTargetProxy::MakeFallback`) are answered by an oracle
`alloc : ℕ → Bool` consulted in call order, and the result records every
successful allocation request, every `Blur1D` draw pass, whether the
separate `ScaleTexture` upscale draw ran, and the dimensions of the
returned texture proxy. A `none` result is the C++ `nullptr` return. -/

/-- One successful `RenderTargetProxy::MakeFallback` request, as issued:
requested logical width/height and the mipmap flag.  (The reported dimensions of the proxy equal the requested ones even under
`BackingFit::Approx`.) -/
structure RTRequest where
  width : ℤ
  height : ℤ
  mipmapped : Bool
deriving DecidableEq

/-- One `Blur1D` draw: the 1D Gaussian fragment-processor pass, with its
sigma, direction, step length and the dimensions of the render target it
fills. -/
structure BlurPass where
  direction : GaussianBlurDirection
  sigma : ℚ
  stepLength : ℚ
  targetWidth : ℤ
  targetHeight : ℤ
deriving DecidableEq

/-- What a successful `lockTextureProxy` run did. -/
structure BlurOutcome where
  scaleFactor : ℚ
  rtAllocs : List RTRequest
  passes : List BlurPass
  upscalePass : Bool
  outWidth : ℤ
  outHeight : ℤ
deriving DecidableEq

/-- The `TPArgs` fields the blur filter reads (besides the context). -/
structure TPArgs where
  mipmapped : Bool
deriving DecidableEq

/-- `std::max(blurrinessX, blurrinessY)`. -/
def maxSigmaOf (f : GaussianBlurImageFilter) : ℚ :=
  max f.blurrinessX f.blurrinessY

/-- `blurrinessX > 0 && blurrinessY > 0`. -/
def blur2DOf (f : GaussianBlurImageFilter) : Bool :=
  decide (0 < f.blurrinessX) && decide (0 < f.blurrinessY)

/-- The downscale factor: `MAX_BLUR_SIGMA / maxSigma` when the larger
blurriness exceeds `MAX_BLUR_SIGMA`, otherwise `1`. -/
def scaleFactorOf (f : GaussianBlurImageFilter) : ℚ :=
  if MAX_BLUR_SIGMA < maxSigmaOf f then MAX_BLUR_SIGMA / maxSigmaOf f else 1

/-- `boundsWillSample`: for a 2D blur, the clip bounds expanded by
`filterBounds`, intersected with the filter bounds of the full source,
rounded out; for a 1D blur, the clip bounds unchanged. -/
def boundsWillSampleOf (f : GaussianBlurImageFilter) (srcW srcH : ℤ)
    (clipBounds : Rect) : Rect :=
  if blur2DOf f then
    (Rect.intersect (filterBounds f clipBounds)
        (filterBounds f (Rect.MakeWH (srcW : ℚ) (srcH : ℚ)))).roundOut
  else clipBounds

/-- `scaledBounds`: `boundsWillSample` mapped by the downscale matrix when
the larger blurriness exceeds `MAX_BLUR_SIGMA`, then rounded out
(unconditionally). -/
def scaledBoundsOf (f : GaussianBlurImageFilter) (srcW srcH : ℤ)
    (clipBounds : Rect) : Rect :=
  let b := boundsWillSampleOf f srcW srcH clipBounds
  (if MAX_BLUR_SIGMA < maxSigmaOf f then b.scale (scaleFactorOf f) else b).roundOut

/-- The mipmap flag of the first render target:
`args.mipmapped && !blur2D && maxSigma <= MAX_BLUR_SIGMA`. -/
def firstPassMipmapped (f : GaussianBlurImageFilter) (args : TPArgs) : Bool :=
  args.mipmapped && !(blur2DOf f) && decide (maxSigmaOf f ≤ MAX_BLUR_SIGMA)

/-- The single `Blur1D` pass of the 1D-blur branch: horizontal when
`blurrinessX > 0`, else vertical when `blurrinessY > 0` (with a
constructed filter exactly one branch is taken). -/
def passes1D (f : GaussianBlurImageFilter) (targetW targetH : ℤ) : List BlurPass :=
  if 0 < f.blurrinessX then
    [⟨.Horizontal, f.blurrinessX * scaleFactorOf f, 1, targetW, targetH⟩]
  else if 0 < f.blurrinessY then
    [⟨.Vertical, f.blurrinessY * scaleFactorOf f, 1, targetW, targetH⟩]
  else []

/-- `GaussianBlurImageFilter::lockTextureProxy(source, clipBounds, args)`,
with the source image abstracted to its dimensions and render-target
allocation answered by `alloc`. -/
def lockTextureProxy (f : GaussianBlurImageFilter) (srcW srcH : ℤ)
    (clipBounds : Rect) (args : TPArgs) (alloc : ℕ → Bool) :
    Option BlurOutcome :=
  let sf := scaleFactorOf f
  let bws := boundsWillSampleOf f srcW srcH clipBounds
  let sb := scaledBoundsOf f srcW srcH clipBounds
  let rt0 : RTRequest :=
    ⟨truncInt sb.width, truncInt sb.height, firstPassMipmapped f args⟩
  if alloc 0 then
    if blur2DOf f then
      -- horizontal pass into the (possibly downscaled) intermediate target
      let pass1 : BlurPass :=
        ⟨.Horizontal, f.blurrinessX * sf, 1, rt0.width, rt0.height⟩
      -- second MakeFallback: the clip-sized final target
      if alloc 1 then
        let rt1 : RTRequest :=
          ⟨truncInt clipBounds.width, truncInt clipBounds.height, args.mipmapped⟩
        -- vertical pass blurs and scales to the clip bounds in one draw
        let pass2 : BlurPass :=
          ⟨.Vertical, f.blurrinessY * sf, bws.height / sb.height,
            rt1.width, rt1.height⟩
        some ⟨sf, [rt0, rt1], [pass1, pass2], false, rt1.width, rt1.height⟩
      else none
    else
      let passes : List BlurPass := passes1D f rt0.width rt0.height
      if maxSigmaOf f ≤ MAX_BLUR_SIGMA then
        some ⟨sf, [rt0], passes, false, rt0.width, rt0.height⟩
      else
        -- ScaleTexture: allocate the clip-sized target and resample into it
        if alloc 1 then
          let rt1 : RTRequest :=
            ⟨truncInt clipBounds.width, truncInt clipBounds.height, args.mipmapped⟩
          some ⟨sf, [rt0, rt1], passes, true, rt1.width, rt1.height⟩
        else none
  else none

/-- The number of `RenderTargetProxy::MakeFallback` calls a fully
successful run performs. -/
def numAllocsOf (f : GaussianBlurImageFilter) : ℕ :=
  if blur2DOf f then 2
  else if maxSigmaOf f ≤ MAX_BLUR_SIGMA then 1
  else 2

/-! ## GLProgram render-target state (GLProgram.cpp). -/

inductive ImageOrigin where
  | TopLeft | BottomLeft
deriving DecidableEq

/-- The render-target fields `GLProgram::setRenderTargetState` reads. -/
structure RenderTarget where
  width : ℤ
  height : ℤ
  origin : ImageOrigin
deriving DecidableEq

/-- The per-program cached `renderTargetState` (width, height, origin of
the render target of the last draw). -/
structure RenderTargetState where
  width : ℤ
  height : ℤ
  origin : ImageOrigin
deriving DecidableEq

/-- `GetRTAdjustArray(width, height, flipY)`: the 4-float device-to-clip
mapping; `result[2]`/`result[3]` are negated when `flipY`. -/
def GetRTAdjustArray (width height : ℤ) (flipY : Bool) : List ℚ :=
  if flipY then [2 / (width : ℚ), -1, -(2 / (height : ℚ)), 1]
  else [2 / (width : ℚ), -1, 2 / (height : ℚ), -1]

/-- `GLProgram::setRenderTargetState(renderTarget)`: the uniform buffer is
modelled as the log of RTAdjust uploads (`uniformBuffer->setData`), the
name of the uniform being a constant defined outside the source drop.  Returns
the new cached state and the new upload log. -/
def setRenderTargetState (st : RenderTargetState) (uploads : List (List ℚ))
    (renderTarget : RenderTarget) : RenderTargetState × List (List ℚ) :=
  if st.width = renderTarget.width ∧ st.height = renderTarget.height ∧
      st.origin = renderTarget.origin then
    (st, uploads)
  else
    (⟨renderTarget.width, renderTarget.height, renderTarget.origin⟩,
      uploads ++ [GetRTAdjustArray renderTarget.width renderTarget.height
        (decide (renderTarget.origin = ImageOrigin.BottomLeft))])

/-! ## Pixmap (Pixmap.cpp).

Pixel pointers are modelled as `Option ℕ` (`none` is `nullptr`).
`ImageInfo` is reduced to the fields the Pixmap invariant depends on.
`PixelRef` (core/PixelRef.h, repository code outside the source drop) backs
the allocated pixel storage of a Bitmap; one exists only for a successful,
non-empty allocation, so its `info()` is never empty, and locking its
pixels may fail. -/

structure ImageInfo where
  width : ℤ
  height : ℤ
deriving DecidableEq

/-- `ImageInfo::isEmpty()`. -/
def ImageInfo.isEmpty (i : ImageInfo) : Bool :=
  decide (i.width ≤ 0) || decide (i.height ≤ 0)

/-- The default-constructed `ImageInfo` (`_info = {}`). -/
def ImageInfo.empty : ImageInfo := ⟨0, 0⟩

structure PixelRef where
  info : ImageInfo
  lockPixels : Option ℕ
  lockWritablePixels : Option ℕ
  infoNonEmpty : info.isEmpty = false

structure Bitmap where
  pixelRef : Option PixelRef

structure Pixmap where
  info : ImageInfo
  pixels : Option ℕ
  writablePixels : Option ℕ
  pixelRef : Option PixelRef

namespace Pixmap

/-- The fully-empty Pixmap: empty info, null pixels, null writable
pixels, no locked PixelRef. -/
def emptyState : Pixmap := ⟨ImageInfo.empty, none, none, none⟩

/-- `Pixmap::reset()`: unlock any PixelRef and clear all fields. -/
def reset (_p : Pixmap) : Pixmap := emptyState

/-- `Pixmap::Pixmap(const ImageInfo& info, const void* pixels)`. -/
def mkConst (info : ImageInfo) (pixels : Option ℕ) : Pixmap :=
  if info.isEmpty || pixels.isNone then emptyState
  else ⟨info, pixels, none, none⟩

/-- `Pixmap::Pixmap(const ImageInfo& info, void* pixels)`: also records
the writable pointer. -/
def mkMut (info : ImageInfo) (pixels : Option ℕ) : Pixmap :=
  if info.isEmpty || pixels.isNone then emptyState
  else ⟨info, pixels, pixels, none⟩

/-- `Pixmap::reset(const ImageInfo& info, const void* pixels)`. -/
def resetConst (p : Pixmap) (info : ImageInfo) (pixels : Option ℕ) : Pixmap :=
  let q := p.reset
  if !info.isEmpty && pixels.isSome then { q with info := info, pixels := pixels }
  else q

/-- `Pixmap::reset(const ImageInfo& info, void* pixels)`. -/
def resetMut (p : Pixmap) (info : ImageInfo) (pixels : Option ℕ) : Pixmap :=
  let q := p.reset
  if !info.isEmpty && pixels.isSome then
    { q with info := info, pixels := pixels, writablePixels := pixels }
  else q

/-- `Pixmap::reset(const Bitmap& bitmap)`: lock the PixelRef of the bitmap for
reading; on a null ref or failed lock the Pixmap stays fully empty. -/
def resetBitmapConst (p : Pixmap) (bitmap : Bitmap) : Pixmap :=
  let q := p.reset
  match bitmap.pixelRef with
  | none => q
  | some ref =>
    match ref.lockPixels with
    | none => q
    | some ptr => ⟨ref.info, some ptr, none, some ref⟩

/-- `Pixmap::reset(Bitmap& bitmap)`: lock for writing; on success both
`_pixels` and `_writablePixels` point at the locked storage. -/
def resetBitmapMut (p : Pixmap) (bitmap : Bitmap) : Pixmap :=
  let q := p.reset
  match bitmap.pixelRef with
  | none => q
  | some ref =>
    match ref.lockWritablePixels with
    | none => q
    | some ptr => ⟨ref.info, some ptr, some ptr, some ref⟩

/-- `Pixmap::Pixmap(const Bitmap&)` delegates to `reset(bitmap)`. -/
def mkBitmapConst (bitmap : Bitmap) : Pixmap := emptyState.resetBitmapConst bitmap

/-- `Pixmap::Pixmap(Bitmap&)` delegates to `reset(bitmap)`. -/
def mkBitmapMut (bitmap : Bitmap) : Pixmap := emptyState.resetBitmapMut bitmap

/-- The Pixmap invariant: the pixel pointer is null exactly when the
image info is empty. -/
def Inv (p : Pixmap) : Prop := p.pixels = none ↔ p.info.isEmpty = true

instance (p : Pixmap) : Decidable p.Inv := by
  unfold Inv; infer_instance

end Pixmap

/-! ## ProgramCache (ProgramCache.h).

The implementation of `ProgramCache::getProgram` and the processor-tree
`computeProcessorKey` construction live outside the source drop, so both
are modelled from the spec (§4.1, §4.3): a processor tree node carries a
class id, its embedded constant parameters and an ordered child list; the
structural bytes key is a length-prefixed encoding of the tree; the cache
maps bytes keys to programs, front-of-list most recently used, with
strict LRU eviction to a fixed capacity and programs created by a
monotone id counter (distinct ids model distinct `Program*`). -/

/-- A FragmentProcessor tree: class id, embedded constant parameters
(each already serialized to a number), children in order. -/
inductive FPTree where
  | node (classId : ℕ) (params : List ℕ) (children : List FPTree)

mutual

/-- `computeProcessorKey`: class identity, parameter count, parameters,
child count, then the keys of the children in order. -/
def key : FPTree → List ℕ
  | .node classId params children =>
    classId :: params.length :: (params ++ children.length :: keyList children)

/-- Keys of a child list, concatenated in order. -/
def keyList : List FPTree → List ℕ
  | [] => []
  | t :: ts => key t ++ keyList ts

end

/-- A program cache: association list from bytes key to program id,
most-recently-used first, plus the next fresh program id. -/
structure CacheState where
  entries : List (List ℕ × ℕ)
  nextId : ℕ

/-- `ProgramCache::getProgram`: compute the key of the creator; on a hit move
the entry to the front of the LRU order and return its program; on a miss
create a fresh program, insert it at the front and evict down to
`capacity` entries. -/
def getProgram (capacity : ℕ) (st : CacheState) (t : FPTree) : ℕ × CacheState :=
  let k := key t
  match st.entries.find? (fun e => decide (e.1 = k)) with
  | some e =>
    (e.2, ⟨(k, e.2) :: st.entries.filter (fun x => !decide (x.1 = k)), st.nextId⟩)
  | none =>
    (st.nextId, ⟨((k, st.nextId) :: st.entries).take capacity, st.nextId + 1⟩)

/-- Well-formedness of a cache state: cached program ids are below the
fresh counter, and neither keys nor program ids repeat. -/
structure ValidCache (st : CacheState) : Prop where
  idBound : ∀ e ∈ st.entries, e.2 < st.nextId
  keysNodup : (st.entries.map (fun e => e.1)).Nodup
  idsNodup : (st.entries.map (fun e => e.2)).Nodup

/-! ## Theorems.

First the bridge lemmas between the executable floor/ceiling and the
Mathlib ones, then per-path characterizations of `lockTextureProxy`,
then the claim theorems. -/

theorem qfloor_eq (q : ℚ) : qfloor q = ⌊q⌋ := by
  rw [qfloor, Rat.floor_def, Int.fdiv_eq_ediv _ (Int.natCast_nonneg _)]

theorem qceil_eq (q : ℚ) : qceil q = ⌈q⌉ := by
  rw [qceil, qfloor_eq, Int.floor_neg, neg_neg]

theorem truncInt_intCast (n : ℤ) : truncInt (n : ℚ) = n := by
  unfold truncInt
  rw [qfloor_eq, qceil_eq]
  split <;> simp

/-- On a rect with integer coordinates, `truncInt` of the width is exact. -/
theorem integral_width (r : Rect) (h : r.IsIntegral) :
    ((truncInt r.width : ℤ) : ℚ) = r.width := by
  have hro : r.roundOut = r := h
  have hl : ((qfloor r.left : ℤ) : ℚ) = r.left := by
    simpa [Rect.roundOut] using congrArg Rect.left hro
  have hr : ((qceil r.right : ℤ) : ℚ) = r.right := by
    simpa [Rect.roundOut] using congrArg Rect.right hro
  have hwq : r.width = ((qceil r.right - qfloor r.left : ℤ) : ℚ) := by
    unfold Rect.width
    push_cast
    rw [hl, hr]
  rw [hwq, truncInt_intCast]

/-- On a rect with integer coordinates, `truncInt` of the height is exact. -/
theorem integral_height (r : Rect) (h : r.IsIntegral) :
    ((truncInt r.height : ℤ) : ℚ) = r.height := by
  have hro : r.roundOut = r := h
  have ht : ((qfloor r.top : ℤ) : ℚ) = r.top := by
    simpa [Rect.roundOut] using congrArg Rect.top hro
  have hb : ((qceil r.bottom : ℤ) : ℚ) = r.bottom := by
    simpa [Rect.roundOut] using congrArg Rect.bottom hro
  have hwq : r.height = ((qceil r.bottom - qfloor r.top : ℤ) : ℚ) := by
    unfold Rect.height
    push_cast
    rw [ht, hb]
  rw [hwq, truncInt_intCast]

/-- Path characterization: 1D blur with the larger blurriness within
`MAX_BLUR_SIGMA`.  One render target sized to the rounded-out clip bounds,
one 1D pass, no upscale draw. -/
theorem lockTextureProxy_small1D (f : GaussianBlurImageFilter) (srcW srcH : ℤ)
    (clip : Rect) (args : TPArgs) (alloc : ℕ → Bool)
    (h2d : blur2DOf f = false) (hs : maxSigmaOf f ≤ MAX_BLUR_SIGMA)
    (h0 : alloc 0 = true) :
    lockTextureProxy f srcW srcH clip args alloc =
      some ⟨1,
        [⟨truncInt clip.roundOut.width, truncInt clip.roundOut.height, args.mipmapped⟩],
        passes1D f (truncInt clip.roundOut.width) (truncInt clip.roundOut.height),
        false, truncInt clip.roundOut.width, truncInt clip.roundOut.height⟩ := by
  have hsf : scaleFactorOf f = 1 := by
    unfold scaleFactorOf; rw [if_neg (not_lt.mpr hs)]
  have hbws : boundsWillSampleOf f srcW srcH clip = clip := by
    unfold boundsWillSampleOf; rw [h2d]; rfl
  have hsb : scaledBoundsOf f srcW srcH clip = clip.roundOut := by
    unfold scaledBoundsOf; rw [hbws]; simp [not_lt.mpr hs]
  have hm : firstPassMipmapped f args = args.mipmapped := by
    unfold firstPassMipmapped
    simp [h2d, hs]
  unfold lockTextureProxy
  rw [hsf, hbws, hsb, hm]
  simp [h0, h2d, hs]

/-- Path characterization: 1D blur with the larger blurriness beyond
`MAX_BLUR_SIGMA`.  A downscaled non-mipmapped intermediate target, one 1D
pass there, then the separate `ScaleTexture` upscale draw into a
clip-sized target. -/
theorem lockTextureProxy_big1D (f : GaussianBlurImageFilter) (srcW srcH : ℤ)
    (clip : Rect) (args : TPArgs) (alloc : ℕ → Bool)
    (h2d : blur2DOf f = false) (hs : MAX_BLUR_SIGMA < maxSigmaOf f)
    (h0 : alloc 0 = true) (h1 : alloc 1 = true) :
    lockTextureProxy f srcW srcH clip args alloc =
      some ⟨scaleFactorOf f,
        [⟨truncInt (scaledBoundsOf f srcW srcH clip).width,
          truncInt (scaledBoundsOf f srcW srcH clip).height, false⟩,
         ⟨truncInt clip.width, truncInt clip.height, args.mipmapped⟩],
        passes1D f (truncInt (scaledBoundsOf f srcW srcH clip).width)
          (truncInt (scaledBoundsOf f srcW srcH clip).height),
        true, truncInt clip.width, truncInt clip.height⟩ := by
  have hm : firstPassMipmapped f args = false := by
    unfold firstPassMipmapped
    simp [not_le.mpr hs]
  unfold lockTextureProxy
  rw [hm]
  simp [h0, h1, h2d, not_le.mpr hs]

/-- Path characterization: 2D blur.  A first (possibly downscaled)
non-mipmapped target receives the horizontal pass; the vertical pass
samples it and writes directly into the clip-sized final target, with the
step length carrying the scale remap; no separate upscale draw runs. -/
theorem lockTextureProxy_2D (f : GaussianBlurImageFilter) (srcW srcH : ℤ)
    (clip : Rect) (args : TPArgs) (alloc : ℕ → Bool)
    (h2d : blur2DOf f = true)
    (h0 : alloc 0 = true) (h1 : alloc 1 = true) :
    lockTextureProxy f srcW srcH clip args alloc =
      some ⟨scaleFactorOf f,
        [⟨truncInt (scaledBoundsOf f srcW srcH clip).width,
          truncInt (scaledBoundsOf f srcW srcH clip).height, false⟩,
         ⟨truncInt clip.width, truncInt clip.height, args.mipmapped⟩],
        [⟨.Horizontal, f.blurrinessX * scaleFactorOf f, 1,
            truncInt (scaledBoundsOf f srcW srcH clip).width,
            truncInt (scaledBoundsOf f srcW srcH clip).height⟩,
         ⟨.Vertical, f.blurrinessY * scaleFactorOf f,
            (boundsWillSampleOf f srcW srcH clip).height /
              (scaledBoundsOf f srcW srcH clip).height,
            truncInt clip.width, truncInt clip.height⟩],
        false, truncInt clip.width, truncInt clip.height⟩ := by
  have hm : firstPassMipmapped f args = false := by
    unfold firstPassMipmapped
    simp [h2d]
  unfold lockTextureProxy
  rw [hm]
  simp [h0, h1, h2d]

/-- Claim C4: `ImageFilter::Blur(blurrinessX, blurrinessY, tileMode)`
returns null exactly when `blurrinessX < 0`, or `blurrinessY < 0`, or both
blurriness values are `0`; for every other input it returns the
constructed blur filter carrying those parameters. -/
theorem Blur_null_iff (blurX blurY : ℚ) (tileMode : TileMode) :
    (ImageFilter.Blur blurX blurY tileMode = none ↔
      blurX < 0 ∨ blurY < 0 ∨ (blurX = 0 ∧ blurY = 0)) ∧
    (¬(blurX < 0 ∨ blurY < 0 ∨ (blurX = 0 ∧ blurY = 0)) →
      ImageFilter.Blur blurX blurY tileMode = some ⟨blurX, blurY, tileMode⟩) := by
  unfold ImageFilter.Blur
  split <;> simp_all

/-- Witness for claim C4: blurriness (0, 0) yields null, and (5, 0)
yields the constructed filter. -/
theorem Blur_null_iff_witness :
    ImageFilter.Blur 0 0 .Clamp = none ∧
    ImageFilter.Blur 5 0 .Clamp = some ⟨5, 0, .Clamp⟩ := by
  constructor
  · exact (Blur_null_iff 0 0 .Clamp).1.mpr (Or.inr (Or.inr ⟨rfl, rfl⟩))
  · exact (Blur_null_iff 5 0 .Clamp).2 (by norm_num)

/-- Claim C7: `GaussianBlurImageFilter::onFilterBounds` outsets the input
rect by exactly `2 * blurrinessX` on the left and right sides and
`2 * blurrinessY` on the top and bottom sides. -/
theorem onFilterBounds_outset (f : GaussianBlurImageFilter) (r : Rect) :
    (onFilterBounds f r).left = r.left - 2 * f.blurrinessX ∧
    (onFilterBounds f r).right = r.right + 2 * f.blurrinessX ∧
    (onFilterBounds f r).top = r.top - 2 * f.blurrinessY ∧
    (onFilterBounds f r).bottom = r.bottom + 2 * f.blurrinessY := by
  simp [onFilterBounds, Rect.makeOutset]

/-- Claim C2, counterexample: the clip rect (1/2, 0, 201/2, 100) has
integer size 100 by 100, every allocation succeeds, yet the plain 1D path
(blurrinessX = 1) rounds the bounds outward and returns a 101 by 100
texture, so integer clip size alone does not give clip-sized output. -/
theorem clip_integer_size_fractional_offsets :
    Rect.width ⟨1/2, 0, 201/2, 100⟩ = 100 ∧ Rect.height ⟨1/2, 0, 201/2, 100⟩ = 100 ∧
    (lockTextureProxy ⟨1, 0, .Clamp⟩ 100 100 ⟨1/2, 0, 201/2, 100⟩ ⟨false⟩
        (fun _ => true)).map (fun o => (o.outWidth, o.outHeight)) = some (101, 100) := by
  have hc : (⌈(201:ℚ)/2⌉ : ℤ) = 101 := by norm_num [Int.ceil_eq_iff]
  refine ⟨by norm_num [Rect.width], by norm_num [Rect.height], ?_⟩
  rw [lockTextureProxy_small1D ⟨1, 0, .Clamp⟩ 100 100 ⟨1/2, 0, 201/2, 100⟩ ⟨false⟩
    (fun _ => true) (by norm_num [blur2DOf]) (by norm_num [maxSigmaOf, MAX_BLUR_SIGMA]) rfl]
  norm_num [Rect.roundOut, Rect.width, Rect.height, truncInt, qfloor_eq, qceil_eq, hc]

/-- Claim C2, amended: for every blur request whose clip rectangle has
integer coordinates and in which every render-target allocation succeeds,
`lockTextureProxy` returns a texture proxy whose dimensions equal the
clip width and height exactly, on every path (1D or 2D, with or without
the downscale factor). -/
theorem lockTextureProxy_dims (f : GaussianBlurImageFilter) (srcW srcH : ℤ)
    (clip : Rect) (args : TPArgs) (alloc : ℕ → Bool)
    (hint : clip.IsIntegral) (hall : ∀ k, alloc k = true) :
    (lockTextureProxy f srcW srcH clip args alloc).map
        (fun o => ((o.outWidth : ℚ), (o.outHeight : ℚ))) =
      some (clip.width, clip.height) := by
  have hw := integral_width clip hint
  have hh := integral_height clip hint
  have hro : clip.roundOut = clip := hint
  by_cases h2d : blur2DOf f = true
  · rw [lockTextureProxy_2D f srcW srcH clip args alloc h2d (hall 0) (hall 1)]
    simp [hw, hh]
  · have h2df : blur2DOf f = false := by simpa using h2d
    by_cases hs : maxSigmaOf f ≤ MAX_BLUR_SIGMA
    · rw [lockTextureProxy_small1D f srcW srcH clip args alloc h2df hs (hall 0), hro]
      simp [hw, hh]
    · rw [lockTextureProxy_big1D f srcW srcH clip args alloc h2df (not_le.mp hs)
        (hall 0) (hall 1)]
      simp [hw, hh]

/-- Witness for the amended claim C2 at blurriness (5, 0), source 100 by
100, clip (0, 0, 100, 100). -/
theorem lockTextureProxy_dims_witness :
    Rect.width ⟨0, 0, 100, 100⟩ = 100 ∧ Rect.height ⟨0, 0, 100, 100⟩ = 100 ∧
    (lockTextureProxy ⟨5, 0, .Clamp⟩ 100 100 ⟨0, 0, 100, 100⟩ ⟨false⟩
        (fun _ => true)).map (fun o => ((o.outWidth : ℚ), (o.outHeight : ℚ))) =
      some (Rect.width ⟨0, 0, 100, 100⟩, Rect.height ⟨0, 0, 100, 100⟩) :=
  ⟨by norm_num [Rect.width], by norm_num [Rect.height],
    lockTextureProxy_dims ⟨5, 0, .Clamp⟩ 100 100 ⟨0, 0, 100, 100⟩ ⟨false⟩
      (fun _ => true)
      (by norm_num [Rect.IsIntegral, Rect.roundOut, qfloor_eq, qceil_eq])
      (fun _ => rfl)⟩

/-- Claim C3, counterexample: for the spec scenario (source 100 by 100,
blurrinessX = blurrinessY = 20, clip (0, 0, 100, 100)) the scale factor
1/2 is computed, but no separate upscale draw runs (`upscalePass` is
false): the second blur pass already writes the full-size 100 by 100
target, so the two blur passes do not both execute in downscaled space
followed by an upscale pass. -/
theorem downscale_2d_no_upscale_pass :
    (lockTextureProxy ⟨20, 20, .Clamp⟩ 100 100 ⟨0, 0, 100, 100⟩ ⟨false⟩
        (fun _ => true)).map
      (fun o => (o.scaleFactor, o.upscalePass,
        o.passes.map (fun p => (p.targetWidth, p.targetHeight)))) =
      some (1 / 2, false, [(90, 90), (100, 100)]) := by
  rw [lockTextureProxy_2D ⟨20, 20, .Clamp⟩ 100 100 ⟨0, 0, 100, 100⟩ ⟨false⟩
    (fun _ => true) (by norm_num [blur2DOf]) rfl rfl]
  norm_num [scaleFactorOf, maxSigmaOf, MAX_BLUR_SIGMA, scaledBoundsOf,
    boundsWillSampleOf, blur2DOf, filterBounds, onFilterBounds, Rect.makeOutset,
    Rect.intersect, Rect.MakeWH, Rect.roundOut, Rect.scale, Rect.width, Rect.height,
    truncInt, qfloor_eq, qceil_eq]

/-- Claim C3, amended: when the larger blurriness exceeds
`MAX_BLUR_SIGMA` (10), the downscale factor `10 / maxSigma` is computed,
the first render target and its blur pass live in downscaled space, and
the result reaches the requested clip size as follows: a 1D blur runs its
single pass in downscaled space and then a separate texture-scaling draw
upscales into a clip-sized target; a 2D blur runs the horizontal pass in
downscaled space and the vertical pass samples the downscaled texture
(step length `boundsWillSample.height / scaledBounds.height`) while
writing directly into the clip-sized target, with no separate upscale
draw. -/
theorem downscale_behavior (f : GaussianBlurImageFilter) (srcW srcH : ℤ)
    (clip : Rect) (args : TPArgs) (alloc : ℕ → Bool)
    (hs : MAX_BLUR_SIGMA < maxSigmaOf f) (hall : ∀ k, alloc k = true) :
    scaleFactorOf f = MAX_BLUR_SIGMA / maxSigmaOf f ∧
    (blur2DOf f = false →
      lockTextureProxy f srcW srcH clip args alloc =
        some ⟨scaleFactorOf f,
          [⟨truncInt (scaledBoundsOf f srcW srcH clip).width,
            truncInt (scaledBoundsOf f srcW srcH clip).height, false⟩,
           ⟨truncInt clip.width, truncInt clip.height, args.mipmapped⟩],
          passes1D f (truncInt (scaledBoundsOf f srcW srcH clip).width)
            (truncInt (scaledBoundsOf f srcW srcH clip).height),
          true, truncInt clip.width, truncInt clip.height⟩) ∧
    (blur2DOf f = true →
      lockTextureProxy f srcW srcH clip args alloc =
        some ⟨scaleFactorOf f,
          [⟨truncInt (scaledBoundsOf f srcW srcH clip).width,
            truncInt (scaledBoundsOf f srcW srcH clip).height, false⟩,
           ⟨truncInt clip.width, truncInt clip.height, args.mipmapped⟩],
          [⟨.Horizontal, f.blurrinessX * scaleFactorOf f, 1,
              truncInt (scaledBoundsOf f srcW srcH clip).width,
              truncInt (scaledBoundsOf f srcW srcH clip).height⟩,
           ⟨.Vertical, f.blurrinessY * scaleFactorOf f,
              (boundsWillSampleOf f srcW srcH clip).height /
                (scaledBoundsOf f srcW srcH clip).height,
              truncInt clip.width, truncInt clip.height⟩],
          false, truncInt clip.width, truncInt clip.height⟩) := by
  refine ⟨by unfold scaleFactorOf; rw [if_pos hs], ?_, ?_⟩
  · intro h2d
    exact lockTextureProxy_big1D f srcW srcH clip args alloc h2d hs (hall 0) (hall 1)
  · intro h2d
    exact lockTextureProxy_2D f srcW srcH clip args alloc h2d (hall 0) (hall 1)

/-- Witness for the amended claim C3: at blurriness (20, 20) the scale
factor is `MAX_BLUR_SIGMA / maxSigma` (that is, 1/2). -/
theorem downscale_behavior_witness :
    scaleFactorOf ⟨20, 20, .Clamp⟩ = MAX_BLUR_SIGMA / maxSigmaOf ⟨20, 20, .Clamp⟩ :=
  (downscale_behavior ⟨20, 20, .Clamp⟩ 100 100 ⟨0, 0, 100, 100⟩ ⟨false⟩ (fun _ => true)
    (by norm_num [maxSigmaOf, MAX_BLUR_SIGMA]) (fun _ => rfl)).1

/-- Claim C5: if any `RenderTargetProxy::MakeFallback` consulted during
the blur (a failing allocation at an index the taken path reaches) fails,
`lockTextureProxy` returns null; no partial outcome is produced. -/
theorem lockTextureProxy_alloc_fail (f : GaussianBlurImageFilter) (srcW srcH : ℤ)
    (clip : Rect) (args : TPArgs) (alloc : ℕ → Bool)
    (h : ∃ k, k < numAllocsOf f ∧ alloc k = false) :
    lockTextureProxy f srcW srcH clip args alloc = none := by
  obtain ⟨k, hk, hf⟩ := h
  by_cases h0 : alloc 0 = true
  · have hk0 : k ≠ 0 := by
      intro he
      rw [he, h0] at hf
      exact Bool.true_eq_false.mp hf
    by_cases h2d : blur2DOf f = true
    · have hk1 : k = 1 := by
        unfold numAllocsOf at hk
        rw [h2d] at hk
        simp at hk
        omega
      rw [hk1] at hf
      unfold lockTextureProxy
      simp [h0, h2d, hf]
    · have h2df : blur2DOf f = false := by simpa using h2d
      by_cases hs : maxSigmaOf f ≤ MAX_BLUR_SIGMA
      · exfalso
        unfold numAllocsOf at hk
        rw [h2df] at hk
        simp [hs] at hk
        omega
      · have hk1 : k = 1 := by
          unfold numAllocsOf at hk
          rw [h2df] at hk
          simp [hs] at hk
          omega
        rw [hk1] at hf
        unfold lockTextureProxy
        simp [h0, h2df, hs, hf]
  · have h0f : alloc 0 = false := by simpa using h0
    unfold lockTextureProxy
    simp [h0f]

/-- Witness for claim C5: a 2D blur whose second allocation fails returns
null. -/
theorem lockTextureProxy_alloc_fail_witness :
    lockTextureProxy ⟨20, 20, .Clamp⟩ 100 100 ⟨0, 0, 100, 100⟩ ⟨false⟩
      (fun k => decide (k = 0)) = none :=
  lockTextureProxy_alloc_fail ⟨20, 20, .Clamp⟩ 100 100 ⟨0, 0, 100, 100⟩ ⟨false⟩
    (fun k => decide (k = 0)) ⟨1, by norm_num [numAllocsOf, blur2DOf], rfl⟩

/-- Claim C6: for every 1D blur request (exactly one blurriness positive)
the bounds-expansion step is skipped (`boundsWillSample` is the clip
bounds unchanged) and, when allocations succeed, exactly one 1D blur pass
runs, along the axis of the positive blurriness; in the spec scenario
(source 100 by 100, blurrinessX = 5, blurrinessY = 0, clip
(0, 0, 100, 100)) that single pass is horizontal with sigma 5 and the
output proxy is 100 by 100. -/
theorem blur1D_single_pass (f : GaussianBlurImageFilter) (srcW srcH : ℤ)
    (clip : Rect) (args : TPArgs) (alloc : ℕ → Bool)
    (hone : (0 < f.blurrinessX ∧ f.blurrinessY ≤ 0) ∨
      (f.blurrinessX ≤ 0 ∧ 0 < f.blurrinessY))
    (hall : ∀ k, alloc k = true) :
    boundsWillSampleOf f srcW srcH clip = clip ∧
    (∃ o, lockTextureProxy f srcW srcH clip args alloc = some o ∧
      o.passes.length = 1 ∧
      (0 < f.blurrinessX → ∀ p ∈ o.passes, p.direction = .Horizontal) ∧
      (0 < f.blurrinessY → ∀ p ∈ o.passes, p.direction = .Vertical)) ∧
    lockTextureProxy ⟨5, 0, .Clamp⟩ 100 100 ⟨0, 0, 100, 100⟩ ⟨false⟩ (fun _ => true) =
      some ⟨1, [⟨100, 100, false⟩], [⟨.Horizontal, 5, 1, 100, 100⟩], false, 100, 100⟩ := by
  have h2d : blur2DOf f = false := by
    unfold blur2DOf
    rcases hone with ⟨_, hy⟩ | ⟨hx, _⟩
    · simp [not_lt.mpr hy]
    · simp [not_lt.mpr hx]
  have hp : ∀ tw th : ℤ, (passes1D f tw th).length = 1 ∧
      (0 < f.blurrinessX → ∀ p ∈ passes1D f tw th, p.direction = .Horizontal) ∧
      (0 < f.blurrinessY → ∀ p ∈ passes1D f tw th, p.direction = .Vertical) := by
    intro tw th
    rcases hone with ⟨hx, hy⟩ | ⟨hx, hy⟩
    · unfold passes1D
      rw [if_pos hx]
      exact ⟨rfl, fun _ p hpp => by simp at hpp; simp [hpp],
        fun hy2 => absurd hy2 (not_lt.mpr hy)⟩
    · unfold passes1D
      rw [if_neg (not_lt.mpr hx), if_pos hy]
      exact ⟨rfl, fun hx2 => absurd hx2 (not_lt.mpr hx),
        fun _ p hpp => by simp at hpp; simp [hpp]⟩
  refine ⟨by unfold boundsWillSampleOf; rw [h2d]; rfl, ?_, ?_⟩
  · by_cases hs : maxSigmaOf f ≤ MAX_BLUR_SIGMA
    · exact ⟨_, lockTextureProxy_small1D f srcW srcH clip args alloc h2d hs (hall 0),
        hp _ _⟩
    · exact ⟨_, lockTextureProxy_big1D f srcW srcH clip args alloc h2d
        (not_le.mp hs) (hall 0) (hall 1), hp _ _⟩
  · have hcon := lockTextureProxy_small1D ⟨5, 0, .Clamp⟩ 100 100 ⟨0, 0, 100, 100⟩
      ⟨false⟩ (fun _ => true) (by norm_num [blur2DOf])
      (by norm_num [maxSigmaOf, MAX_BLUR_SIGMA]) rfl
    rw [hcon]
    norm_num [passes1D, scaleFactorOf, maxSigmaOf, MAX_BLUR_SIGMA, firstPassMipmapped,
      Rect.roundOut, Rect.width, Rect.height, truncInt, qfloor_eq, qceil_eq]

/-- Witness for claim C6 at the spec scenario itself. -/
theorem blur1D_single_pass_witness :
    lockTextureProxy ⟨5, 0, .Clamp⟩ 100 100 ⟨0, 0, 100, 100⟩ ⟨false⟩ (fun _ => true) =
      some ⟨1, [⟨100, 100, false⟩], [⟨.Horizontal, 5, 1, 100, 100⟩], false, 100, 100⟩ :=
  (blur1D_single_pass ⟨5, 0, .Clamp⟩ 100 100 ⟨0, 0, 100, 100⟩ ⟨false⟩ (fun _ => true)
    (Or.inl ⟨by norm_num, le_refl 0⟩) (fun _ => rfl)).2.2

/-- Claim C8: `GLProgram::setRenderTargetState` leaves both the cached
render-target state and the uniform upload log unchanged exactly when the
incoming render target matches the cached width, height and origin; on
any difference it caches the new triple and uploads the recomputed
4-float RTAdjust array (negated rows for a bottom-left origin). -/
theorem setRenderTargetState_dirty_check (st : RenderTargetState)
    (uploads : List (List ℚ)) (renderTarget : RenderTarget) :
    (st.width = renderTarget.width ∧ st.height = renderTarget.height ∧
        st.origin = renderTarget.origin →
      setRenderTargetState st uploads renderTarget = (st, uploads)) ∧
    (¬(st.width = renderTarget.width ∧ st.height = renderTarget.height ∧
          st.origin = renderTarget.origin) →
      setRenderTargetState st uploads renderTarget =
        (⟨renderTarget.width, renderTarget.height, renderTarget.origin⟩,
          uploads ++ [GetRTAdjustArray renderTarget.width renderTarget.height
            (decide (renderTarget.origin = ImageOrigin.BottomLeft))])) := by
  unfold setRenderTargetState
  constructor <;> intro h <;> simp [h]

/-- Witness for claim C8: a matching render target leaves the state and
the upload log untouched. -/
theorem setRenderTargetState_witness :
    setRenderTargetState ⟨100, 50, .TopLeft⟩ [] ⟨100, 50, .TopLeft⟩ =
      (⟨100, 50, .TopLeft⟩, []) :=
  (setRenderTargetState_dirty_check ⟨100, 50, .TopLeft⟩ [] ⟨100, 50, .TopLeft⟩).1
    ⟨rfl, rfl, rfl⟩

/-- Claim C9: when mipmaps are requested but the blur is 2D or the larger
blurriness exceeds `MAX_BLUR_SIGMA`, the first render target is created
non-mipmapped and the requested mipmap state is honored only on the
final clip-sized render target. -/
theorem blur_first_target_not_mipmapped (f : GaussianBlurImageFilter) (srcW srcH : ℤ)
    (clip : Rect) (args : TPArgs) (alloc : ℕ → Bool)
    (hm : args.mipmapped = true)
    (hcond : blur2DOf f = true ∨ MAX_BLUR_SIGMA < maxSigmaOf f)
    (hall : ∀ k, alloc k = true) :
    ∃ w h : ℤ, (lockTextureProxy f srcW srcH clip args alloc).map
        (fun o => o.rtAllocs.map (fun r => (r.width, r.height, r.mipmapped))) =
      some [(w, h, false), (truncInt clip.width, truncInt clip.height, true)] := by
  by_cases h2d : blur2DOf f = true
  · refine ⟨truncInt (scaledBoundsOf f srcW srcH clip).width,
      truncInt (scaledBoundsOf f srcW srcH clip).height, ?_⟩
    rw [lockTextureProxy_2D f srcW srcH clip args alloc h2d (hall 0) (hall 1)]
    simp [hm]
  · have h2df : blur2DOf f = false := by simpa using h2d
    rcases hcond with hc | hs
    · exact absurd hc h2d
    · refine ⟨truncInt (scaledBoundsOf f srcW srcH clip).width,
        truncInt (scaledBoundsOf f srcW srcH clip).height, ?_⟩
      rw [lockTextureProxy_big1D f srcW srcH clip args alloc h2df hs (hall 0) (hall 1)]
      simp [hm]

/-- Witness for claim C9: the 2D blur at blurriness (20, 20) with
requested mipmaps creates a non-mipmapped first target and a mipmapped
final clip-sized target. -/
theorem blur_first_target_not_mipmapped_witness :
    ∃ w h : ℤ, (lockTextureProxy ⟨20, 20, .Clamp⟩ 100 100 ⟨0, 0, 100, 100⟩ ⟨true⟩
        (fun _ => true)).map
        (fun o => o.rtAllocs.map (fun r => (r.width, r.height, r.mipmapped))) =
      some [(w, h, false),
        (truncInt (Rect.width ⟨0, 0, 100, 100⟩), truncInt (Rect.height ⟨0, 0, 100, 100⟩),
          true)] :=
  blur_first_target_not_mipmapped ⟨20, 20, .Clamp⟩ 100 100 ⟨0, 0, 100, 100⟩ ⟨true⟩
    (fun _ => true) rfl (Or.inl (by norm_num [blur2DOf])) (fun _ => rfl)

/-- Claim C10: every Pixmap constructor and reset overload establishes
the invariant that the pixel pointer is null exactly when the ImageInfo
is empty; constructing or resetting with an empty info or a null pixel
pointer leaves the Pixmap fully empty, and resetting from a Bitmap whose
pixels cannot be locked likewise leaves it fully empty. -/
theorem Pixmap_inv_all (info : ImageInfo) (pixels : Option ℕ) (p : Pixmap) (b : Bitmap) :
    (Pixmap.mkConst info pixels).Inv ∧
    (Pixmap.mkMut info pixels).Inv ∧
    p.reset = Pixmap.emptyState ∧
    Pixmap.emptyState.Inv ∧
    (p.resetConst info pixels).Inv ∧
    (p.resetMut info pixels).Inv ∧
    (p.resetBitmapConst b).Inv ∧
    (p.resetBitmapMut b).Inv ∧
    (Pixmap.mkBitmapConst b).Inv ∧
    (Pixmap.mkBitmapMut b).Inv ∧
    (info.isEmpty = true ∨ pixels = none →
      Pixmap.mkConst info pixels = Pixmap.emptyState ∧
      Pixmap.mkMut info pixels = Pixmap.emptyState ∧
      p.resetConst info pixels = Pixmap.emptyState ∧
      p.resetMut info pixels = Pixmap.emptyState) ∧
    (b.pixelRef.bind (fun r => r.lockPixels) = none →
      p.resetBitmapConst b = Pixmap.emptyState) ∧
    (b.pixelRef.bind (fun r => r.lockWritablePixels) = none →
      p.resetBitmapMut b = Pixmap.emptyState) := by
  have hempty : Pixmap.emptyState.Inv := by
    simp [Pixmap.emptyState, Pixmap.Inv, ImageInfo.empty, ImageInfo.isEmpty]
  refine ⟨?_, ?_, rfl, hempty, ?_, ?_, ?_, ?_, ?_, ?_, ?_, ?_, ?_⟩
  · unfold Pixmap.mkConst
    split
    · exact hempty
    · next h =>
      simp only [Bool.or_eq_true, Option.isNone_iff_eq_none, not_or] at h
      simp [Pixmap.Inv, h.1, h.2]
  · unfold Pixmap.mkMut
    split
    · exact hempty
    · next h =>
      simp only [Bool.or_eq_true, Option.isNone_iff_eq_none, not_or] at h
      simp [Pixmap.Inv, h.1, h.2]
  · unfold Pixmap.resetConst Pixmap.reset
    split
    · next h =>
      simp only [Bool.and_eq_true, Bool.not_eq_true', Option.isSome_iff_exists] at h
      obtain ⟨hi, x, hx⟩ := h
      simp [Pixmap.Inv, hi, hx]
    · exact hempty
  · unfold Pixmap.resetMut Pixmap.reset
    split
    · next h =>
      simp only [Bool.and_eq_true, Bool.not_eq_true', Option.isSome_iff_exists] at h
      obtain ⟨hi, x, hx⟩ := h
      simp [Pixmap.Inv, hi, hx]
    · exact hempty
  · simp only [Pixmap.resetBitmapConst, Pixmap.reset]
    split
    · exact hempty
    · next ref _ =>
      split
      · exact hempty
      · next ptr _ => simp [Pixmap.Inv, ref.infoNonEmpty]
  · simp only [Pixmap.resetBitmapMut, Pixmap.reset]
    split
    · exact hempty
    · next ref _ =>
      split
      · exact hempty
      · next ptr _ => simp [Pixmap.Inv, ref.infoNonEmpty]
  · simp only [Pixmap.mkBitmapConst, Pixmap.resetBitmapConst, Pixmap.reset]
    split
    · exact hempty
    · next ref _ =>
      split
      · exact hempty
      · next ptr _ => simp [Pixmap.Inv, ref.infoNonEmpty]
  · simp only [Pixmap.mkBitmapMut, Pixmap.resetBitmapMut, Pixmap.reset]
    split
    · exact hempty
    · next ref _ =>
      split
      · exact hempty
      · next ptr _ => simp [Pixmap.Inv, ref.infoNonEmpty]
  · intro h
    have hc : (info.isEmpty || pixels.isNone) = true := by
      rcases h with h | h <;> simp [h]
    have hc2 : (!info.isEmpty && pixels.isSome) = false := by
      rcases h with h | h <;> simp [h]
    exact ⟨by unfold Pixmap.mkConst; simp [hc],
           by unfold Pixmap.mkMut; simp [hc],
           by unfold Pixmap.resetConst Pixmap.reset; simp [hc2],
           by unfold Pixmap.resetMut Pixmap.reset; simp [hc2]⟩
  · intro h
    simp only [Pixmap.resetBitmapConst, Pixmap.reset]
    split
    · rfl
    · next ref heq =>
      rw [heq] at h
      simp only [Option.some_bind] at h
      split
      · rfl
      · next ptr heq2 => rw [h] at heq2; exact absurd heq2 (by simp)
  · intro h
    simp only [Pixmap.resetBitmapMut, Pixmap.reset]
    split
    · rfl
    · next ref heq =>
      rw [heq] at h
      simp only [Option.some_bind] at h
      split
      · rfl
      · next ptr heq2 => rw [h] at heq2; exact absurd heq2 (by simp)

/-- Witness for claim C10: an empty info with a non-null pointer yields
the fully empty Pixmap, which satisfies the invariant. -/
theorem Pixmap_inv_all_witness :
    Pixmap.mkConst ⟨0, 0⟩ (some 7) = Pixmap.emptyState ∧
    (Pixmap.mkConst ⟨0, 0⟩ (some 7)).Inv :=
  ⟨((Pixmap_inv_all ⟨0, 0⟩ (some 7) Pixmap.emptyState ⟨none⟩).2.2.2.2.2.2.2.2.2.2.1
      (Or.inl (by simp [ImageInfo.isEmpty]))).1,
    (Pixmap_inv_all ⟨0, 0⟩ (some 7) Pixmap.emptyState ⟨none⟩).1⟩

/-! ## Claim C1: key construction and program-cache correctness. -/

/-- The length-prefixed key encoding is unambiguous on child lists: equal
concatenations of keys of equally long lists decompose identically
(pointwise unambiguity of the element keys is taken as a hypothesis and
discharged by induction on the tree size). -/

theorem keyList_unambiguous (l1 : List FPTree)
    (H : ∀ t ∈ l1, ∀ t2 s1 s2, key t ++ s1 = key t2 ++ s2 → t = t2 ∧ s1 = s2) :
    ∀ l2 s1 s2, l1.length = l2.length →
      keyList l1 ++ s1 = keyList l2 ++ s2 → l1 = l2 ∧ s1 = s2 := by
  induction l1 with
  | nil =>
    intro l2 s1 s2 hlen heq
    cases l2 with
    | nil => simpa [keyList] using heq
    | cons u us => simp at hlen
  | cons t ts ih =>
    intro l2 s1 s2 hlen heq
    cases l2 with
    | nil => simp at hlen
    | cons u us =>
      simp only [keyList, List.append_assoc] at heq
      obtain ⟨hteq, hrest⟩ := H t (by simp) u (keyList ts ++ s1) (keyList us ++ s2) heq
      have hlen' : ts.length = us.length := by simpa using hlen
      obtain ⟨hts, hs⟩ := ih (fun x hx => H x (by simp [hx])) us s1 s2 hlen' hrest
      exact ⟨by rw [hteq, hts], hs⟩

/-- The key encoding is prefix-unambiguous: if two keys followed by
arbitrary suffixes are equal as byte lists, the trees and the suffixes
coincide.  Stated with an explicit size bound for the strong induction. -/
theorem key_unambiguous_bounded :
    ∀ (n : ℕ) (t1 : FPTree), sizeOf t1 ≤ n → ∀ t2 s1 s2,
      key t1 ++ s1 = key t2 ++ s2 → t1 = t2 ∧ s1 = s2 := by
  intro n
  induction n with
  | zero =>
    intro t1 h
    obtain ⟨c, ps, cs⟩ := t1
    simp [FPTree.node.sizeOf_spec] at h
  | succ n ih =>
    intro t1 hsz t2 s1 s2 heq
    obtain ⟨c1, ps1, cs1⟩ := t1
    obtain ⟨c2, ps2, cs2⟩ := t2
    simp only [key, List.cons_append, List.cons.injEq] at heq
    obtain ⟨hc, hlen, heq⟩ := heq
    rw [List.append_assoc, List.append_assoc] at heq
    obtain ⟨hps, heq⟩ := List.append_inj heq hlen
    simp only [List.cons_append, List.cons.injEq] at heq
    obtain ⟨hclen, heq⟩ := heq
    have hcs : cs1 = cs2 ∧ s1 = s2 := by
      refine keyList_unambiguous cs1 ?_ cs2 s1 s2 hclen heq
      intro t ht
      have h1 : sizeOf t < sizeOf cs1 := List.sizeOf_lt_of_mem ht
      have h2 : sizeOf cs1 < sizeOf (FPTree.node c1 ps1 cs1) := by
        simp [FPTree.node.sizeOf_spec]
      exact ih t (by omega)
    exact ⟨by rw [hc, hps, hcs.1], hcs.2⟩

/-- Key determinism and injectivity: structurally equal trees have equal
keys definitionally, and equal keys force structural equality, so key
collisions between different trees are impossible. -/
theorem key_inj (t1 t2 : FPTree) (h : key t1 = key t2) : t1 = t2 :=
  (key_unambiguous_bounded (sizeOf t1) t1 le_rfl t2 [] [] (by simp [h])).1



/-- `getProgram` preserves cache well-formedness, both on a hit
(move-to-front) and on a miss (fresh insert plus LRU trim). -/
theorem getProgram_preserves_valid (capacity : ℕ) (st : CacheState) (t : FPTree)
    (hv : ValidCache st) : ValidCache (getProgram capacity st t).2 := by
  cases hfind : st.entries.find? (fun e => decide (e.1 = key t)) with
  | some e =>
    have hmem : e ∈ st.entries := List.mem_of_find?_eq_some hfind
    have hkey : e.1 = key t := by
      have := List.find?_some hfind
      simpa using this
    simp only [getProgram, hfind]
    refine ⟨?_, ?_, ?_⟩
    · intro x hx
      simp only [List.mem_cons] at hx
      rcases hx with hx | hx
      · rw [hx]; exact hv.idBound e hmem
      · exact hv.idBound x ((List.filter_sublist _).mem hx)
    · simp only [List.map_cons, List.nodup_cons]
      constructor
      · intro hmm
        obtain ⟨x, hx, hxk⟩ := List.mem_map.mp hmm
        have := (List.mem_filter.mp hx).2
        rw [hxk] at this
        simp at this
      · exact hv.keysNodup.sublist ((List.filter_sublist _).map _)
    · simp only [List.map_cons, List.nodup_cons]
      constructor
      · intro hmm
        obtain ⟨x, hx, hxid⟩ := List.mem_map.mp hmm
        have hxmem : x ∈ st.entries := (List.filter_sublist _).mem hx
        have hxne : ¬(x.1 = key t) := by
          have := (List.mem_filter.mp hx).2
          simpa using this
        have : x = e := List.inj_on_of_nodup_map hv.idsNodup hxmem hmem hxid
        rw [this] at hxne
        exact hxne hkey
      · exact hv.idsNodup.sublist ((List.filter_sublist _).map _)
  | none =>
    have hnone : ∀ x ∈ st.entries, ¬(x.1 = key t) := by
      intro x hx
      have := List.find?_eq_none.mp hfind x hx
      simpa using this
    simp only [getProgram, hfind]
    refine ⟨?_, ?_, ?_⟩
    · intro x hx
      have hx' : x ∈ (key t, st.nextId) :: st.entries := (List.take_sublist _ _).mem hx
      simp only [List.mem_cons] at hx'
      rcases hx' with hx' | hx'
      · rw [hx']
        show st.nextId < st.nextId + 1
        omega
      · have := hv.idBound x hx'
        show x.2 < st.nextId + 1
        omega
    · refine List.Nodup.sublist ((List.take_sublist _ _).map _) ?_
      simp only [List.map_cons, List.nodup_cons]
      exact ⟨fun hmm => by
        obtain ⟨x, hx, hxk⟩ := List.mem_map.mp hmm
        exact hnone x hx hxk, hv.keysNodup⟩
    · refine List.Nodup.sublist ((List.take_sublist _ _).map _) ?_
      simp only [List.map_cons, List.nodup_cons]
      refine ⟨fun hmm => ?_, hv.idsNodup⟩
      obtain ⟨x, hx, hxid⟩ := List.mem_map.mp hmm
      have := hv.idBound x hx
      omega



/-- Unfolding equation of `getProgram` on a cache hit. -/
theorem getProgram_hit (capacity : ℕ) (st : CacheState) (t : FPTree)
    (e : List ℕ × ℕ)
    (hfind : st.entries.find? (fun x => decide (x.1 = key t)) = some e) :
    getProgram capacity st t =
      (e.2, ⟨(key t, e.2) :: st.entries.filter (fun x => !decide (x.1 = key t)),
        st.nextId⟩) := by
  simp [getProgram, hfind]

/-- Unfolding equation of `getProgram` on a cache miss. -/
theorem getProgram_miss (capacity : ℕ) (st : CacheState) (t : FPTree)
    (hfind : st.entries.find? (fun x => decide (x.1 = key t)) = none) :
    getProgram capacity st t =
      (st.nextId, ⟨((key t, st.nextId) :: st.entries).take capacity,
        st.nextId + 1⟩) := by
  simp [getProgram, hfind]

/-- Claim C1: from any well-formed cache state with positive capacity,
two consecutive `getProgram` calls whose processor trees are structurally
equal (same class ids, same child order, same embedded constant values)
return the same Program, with no second compilation; calls with
structurally different trees return different Programs. -/
theorem getProgram_structural_dedup (capacity : ℕ) (hcap : 1 ≤ capacity)
    (st : CacheState) (hv : ValidCache st) (t1 t2 : FPTree) :
    (t1 = t2 →
      (getProgram capacity (getProgram capacity st t1).2 t2).1 =
        (getProgram capacity st t1).1) ∧
    (t1 ≠ t2 →
      (getProgram capacity (getProgram capacity st t1).2 t2).1 ≠
        (getProgram capacity st t1).1) := by
  obtain ⟨m, rfl⟩ : ∃ m, capacity = m + 1 := ⟨capacity - 1, by omega⟩
  constructor
  · intro heq
    subst heq
    cases hfind : st.entries.find? (fun x => decide (x.1 = key t1)) with
    | some e =>
      rw [getProgram_hit _ st t1 e hfind]
      show (getProgram (m + 1)
        ⟨(key t1, e.2) :: st.entries.filter (fun x => !decide (x.1 = key t1)),
          st.nextId⟩ t1).1 = e.2
      rw [getProgram_hit _ _ t1 (key t1, e.2) (List.find?_cons_of_pos _ (by simp))]
    | none =>
      rw [getProgram_miss _ st t1 hfind]
      show (getProgram (m + 1)
        ⟨((key t1, st.nextId) :: st.entries).take (m + 1), st.nextId + 1⟩ t1).1 =
        st.nextId
      have hf2 : (((key t1, st.nextId) :: st.entries).take (m + 1)).find?
          (fun x => decide (x.1 = key t1)) = some (key t1, st.nextId) := by
        rw [List.take_succ_cons]
        exact List.find?_cons_of_pos _ (by simp)
      rw [getProgram_hit _ _ t1 (key t1, st.nextId) hf2]
  · intro hne
    have hkne : key t1 ≠ key t2 := fun h => hne (key_inj _ _ h)
    cases hfind1 : st.entries.find? (fun x => decide (x.1 = key t1)) with
    | some e1 =>
      have hmem1 : e1 ∈ st.entries := List.mem_of_find?_eq_some hfind1
      have hkey1 : e1.1 = key t1 := by simpa using List.find?_some hfind1
      rw [getProgram_hit _ st t1 e1 hfind1]
      show (getProgram (m + 1)
        ⟨(key t1, e1.2) :: st.entries.filter (fun x => !decide (x.1 = key t1)),
          st.nextId⟩ t2).1 ≠ e1.2
      cases hfind2 : ((key t1, e1.2) ::
          st.entries.filter (fun x => !decide (x.1 = key t1))).find?
            (fun x => decide (x.1 = key t2)) with
      | some e2 =>
        rw [getProgram_hit _ _ t2 e2 hfind2]
        show e2.2 ≠ e1.2
        have hkey2 : e2.1 = key t2 := by simpa using List.find?_some hfind2
        have hmem2 := List.mem_of_find?_eq_some hfind2
        rcases List.mem_cons.mp hmem2 with hh | hh
        · exfalso
          have hcontra : e2.1 = key t1 := by rw [hh]
          exact hkne (by rw [← hkey2, hcontra])
        · intro hid
          have hmem2s : e2 ∈ st.entries := (List.filter_sublist _).mem hh
          have he : e2 = e1 := List.inj_on_of_nodup_map hv.idsNodup hmem2s hmem1 hid
          rw [he, hkey1] at hkey2
          exact hkne hkey2
      | none =>
        rw [getProgram_miss _ _ t2 hfind2]
        show st.nextId ≠ e1.2
        have := hv.idBound e1 hmem1
        omega
    | none =>
      rw [getProgram_miss _ st t1 hfind1]
      show (getProgram (m + 1)
        ⟨((key t1, st.nextId) :: st.entries).take (m + 1), st.nextId + 1⟩ t2).1 ≠
        st.nextId
      cases hfind2 : (((key t1, st.nextId) :: st.entries).take (m + 1)).find?
          (fun x => decide (x.1 = key t2)) with
      | some e2 =>
        rw [getProgram_hit _ _ t2 e2 hfind2]
        show e2.2 ≠ st.nextId
        have hkey2 : e2.1 = key t2 := by simpa using List.find?_some hfind2
        have hmem2 := (List.take_sublist _ _).mem (List.mem_of_find?_eq_some hfind2)
        rcases List.mem_cons.mp hmem2 with hh | hh
        · exfalso
          have hcontra : e2.1 = key t1 := by rw [hh]
          exact hkne (by rw [← hkey2, hcontra])
        · intro hid
          have := hv.idBound e2 hh
          omega
      | none =>
        rw [getProgram_miss _ _ t2 hfind2]
        show st.nextId + 1 ≠ st.nextId
        omega

/-- Witness for claim C1: on an empty cache of capacity 8, two calls with
different single-node trees return different Programs. -/
theorem getProgram_structural_dedup_witness :
    (getProgram 8 (getProgram 8 ⟨[], 0⟩ (.node 0 [] [])).2 (.node 1 [] [])).1 ≠
      (getProgram 8 ⟨[], 0⟩ (.node 0 [] [])).1 :=
  (getProgram_structural_dedup 8 (by omega) ⟨[], 0⟩
    ⟨by intro e he; simp at he, by simp, by simp⟩
    (.node 0 [] []) (.node 1 [] [])).2 (by simp)


end TgfxModel
